import Mathlib

/-!
# Verification of the EcoOyster backend (src/app.py)

A shallow embedding of the meaningful core of the EcoOyster Flask backend:
the production estimator `calculate_oyster_production`, the technique-label
lookup `get_farming_technique_name`, the recommendation-text sanitizer
`parse_ai_recommendations`, the fail-soft recommendation requester
`get_ai_recommendations`, and the boundary logic of the `/api/predict`
handler `predict`.

Modelling conventions:
* Python strings are `List Char`; `str.strip`, `str.split` on a newline and
  `str.join` are embedded explicitly (`strip`, `splitNL`, `joinNL`).
* Python floats are modelled with exact rational arithmetic (`ℚ`),
  Python ints with `ℤ`.
* The three regular expressions used by the sanitizer are embedded as
  explicit decidable predicates on character lists, and the fallback
  whole-string search is embedded as a leftmost-match-position function.
* The external language-model provider call is modelled by a
  `ProviderOutcome` parameter: either the raw completion text or the
  message of the raised exception.
* The JSON body of `/api/predict` is modelled as an optional association
  list of `JVal` values; Python's `float(...)`/`int(...)` coercions are
  embedded by `pyFloat`/`pyInt` (string-literal parsing is restricted to
  plain decimal literals, which does not affect any claim's control flow).
-/

set_option autoImplicit false

namespace EcoOyster

/-- Python strings, as lists of characters. -/
abbrev Str := List Char

/-- Convert a Lean string literal to the `List Char` representation. -/
def chars (s : String) : Str := s.toList

/-! ## Python string primitives -/

/-- The whitespace characters removed by Python's default `str.strip()`
(restricted to the ASCII whitespace class, which is all that occurs here). -/
def isWS (c : Char) : Bool :=
  c = ' ' || c = '\t' || c = '\n' || c = '\r' || c = '\x0b' || c = '\x0c'

/-- Python `str.lstrip()`. -/
def lstrip (l : Str) : Str := l.dropWhile isWS

/-- Python `str.rstrip()`. -/
def rstrip (l : Str) : Str := (l.reverse.dropWhile isWS).reverse

/-- Python `str.strip()`. -/
def strip (l : Str) : Str := lstrip (rstrip l)

/-- Python `str.split('\n')`. -/
def splitNL : Str → List Str
  | [] => [[]]
  | c :: cs =>
    match splitNL cs with
    | [] => [[]]
    | l :: ls => if c = '\n' then [] :: l :: ls else (c :: l) :: ls

/-- Python `'\n'.join(lines)`. -/
def joinNL : List Str → Str
  | [] => []
  | [l] => l
  | l :: m :: ls => l ++ '\n' :: joinNL (m :: ls)

/-! ## The production estimator (src/app.py:68) -/

/-- Embedding of `calculate_oyster_production` (src/app.py:68): the fixed
linear formula clamped at zero, over exact rational arithmetic. -/
def calculate_oyster_production (salinity : ℚ) (farming_technique typhoon flood : ℤ) : ℚ :=
  let production :=
    0.268 * salinity + 0.567 * (farming_technique : ℚ) + 0.436 * (typhoon : ℚ)
      + 0.223 * (flood : ℚ) - 4.595
  max 0 production

/-- Embedding of `get_farming_technique_name` (src/app.py:86):
`technique_map.get(technique_code, "Unknown")`. -/
def get_farming_technique_name (technique_code : ℤ) : Str :=
  if technique_code = 1 then chars "Raft method"
  else if technique_code = 2 then chars "Stake method"
  else if technique_code = 3 then chars "Both Raft and Stake"
  else chars "Unknown"

/-! ## The recommendation-text sanitizer (src/app.py:107)

The three regular expressions of the source are embedded as decidable
predicates on (newline-free) character lists:
* `re.match(r'^\*\*.*\*\*$', t)` succeeds iff `t` is `**`, any characters,
  `**` — i.e. `t` has length at least 4, starts with `**` and ends with `**`;
* `re.match(r'^#+\s+', t)` succeeds iff `t` starts with a `#` and the first
  character after the maximal run of `#` exists and is whitespace (`\s` can
  never consume a `#`, so backtracking over `#+` adds nothing);
* `re.match(r'^[•\-\*]\s+', t)` succeeds iff the first character is a bullet
  glyph and the second exists and is whitespace. -/

/-- `re.match(r'^\*\*.*\*\*$', t)` on a newline-free line `t`. -/
def isStarHeader (t : Str) : Bool :=
  decide (4 ≤ t.length) && t.take 2 = chars "**" && t.reverse.take 2 = chars "**"

/-- `re.match(r'^#+\s+', t)`. -/
def isHashHeader (t : Str) : Bool :=
  match t with
  | '#' :: _ =>
    match t.dropWhile (fun c => c = '#') with
    | c :: _ => isWS c
    | [] => false
  | _ => false

/-- The category-header test of src/app.py:130. -/
def isHeaderLine (t : Str) : Bool := isStarHeader t || isHashHeader t

/-- `re.match(r'^[•\-\*]\s+', t)` (src/app.py:141). -/
def isBulletLine (t : Str) : Bool :=
  match t with
  | c :: d :: _ => (c = '•' || c = '-' || c = '*') && isWS d
  | _ => false

/-- The scanning loop of `parse_ai_recommendations` (src/app.py:126):
given the incoming `start_found` flag and the remaining lines, return the
final `start_found` flag together with the `recommendations` list collected
from these lines.  The second header re-check mirrors the (unreachable)
`elif` of src/app.py:144. -/
def scanLines : Bool → List Str → Bool × List Str
  | started, [] => (started, [])
  | started, l :: ls =>
    let t := strip l
    if isHeaderLine t then
      let r := scanLines true ls
      (r.1, l :: r.2)
    else if started then
      if t.isEmpty then
        let r := scanLines started ls
        (r.1, l :: r.2)
      else if isBulletLine t then
        let r := scanLines started ls
        (r.1, l :: r.2)
      else if isHeaderLine t then
        let r := scanLines started ls
        (r.1, l :: r.2)
      else scanLines started ls
    else scanLines started ls

/-- Existence of a match of `[^*]*\*\*` at the head of `s`, used after the
opening `**` and the first non-`*` character of `\*\*[^*]+\*\*` have been
consumed: true iff the first `'*'` of `s` exists and is immediately followed
by another `'*'`. -/
def starsClose : Str → Bool
  | [] => false
  | c :: cs => if c = '*' then cs.headD ' ' = '*' else starsClose cs

/-- Existence of a match of the first fallback alternative `\*\*[^*]+\*\*`
at the head of `s`. -/
def matchStarAt : Str → Bool
  | c1 :: c2 :: c3 :: cs => c1 = '*' && c2 = '*' && !(c3 = '*') && starsClose (c3 :: cs)
  | _ => false

/-- Existence of a match of the second fallback alternative `#+\s+[^\n]+`
at the head of `s`: a run of `#`, then at least one whitespace character,
then one non-newline character.  After the first whitespace character the
only way to extend `\s+` up to a usable `[^\n]` terminal is through
newlines, so the condition reduces to: some later character differs
from `'\n'`. -/
def matchHashAt (s : Str) : Bool :=
  s.headD ' ' = '#' &&
    match s.dropWhile (fun c => c = '#') with
    | c :: cs => isWS c && cs.any (fun d => !(d = '\n'))
    | [] => false

/-- Leftmost start position of a match of the fallback pattern
`r'\*\*[^*]+\*\*|#+\s+[^\n]+'` (src/app.py:149), i.e.
`re.finditer(...)[0].start()`. -/
def findHeaderPos : Str → Option Nat
  | [] => none
  | c :: cs =>
    if matchStarAt (c :: cs) || matchHashAt (c :: cs) then some 0
    else (findHeaderPos cs).map (· + 1)

/-- Embedding of `parse_ai_recommendations` (src/app.py:107). -/
def parse_ai_recommendations (raw_response : Str) : Str :=
  let lines := splitNL raw_response
  let scanned := scanLines false lines
  if scanned.1 then strip (joinNL scanned.2)
  else
    match findHeaderPos raw_response with
    | some start_pos => strip (raw_response.drop start_pos)
    | none => strip raw_response

/-- The keep-predicate in the statement of claim C2: once started, a line is
kept iff its stripped form is a header, a bullet, or blank. -/
def keepLine (l : Str) : Bool :=
  isHeaderLine (strip l) || isBulletLine (strip l) || (strip l).isEmpty

/-- Helper for the idempotence proof: the effect of `rstrip` on a
newline-join, expressed on the list of lines — trailing all-whitespace
lines disappear and the last surviving line is right-stripped. -/
def trimTrail : List Str → List Str
  | [] => []
  | l :: ls =>
    match trimTrail ls with
    | [] => if rstrip l = [] then [] else [rstrip l]
    | m :: ms => l :: m :: ms

/-! ## The recommendation requester (src/app.py:164) -/

/-- Outcome of the external provider call
(`client.chat.completions.create`, src/app.py:239): the raw completion
text, or the message of the exception the call raised. -/
inductive ProviderOutcome where
  | ok (raw : Str)
  | exn (msg : Str)
deriving DecidableEq

/-- Embedding of `get_ai_recommendations` (src/app.py:164).  The numeric
arguments only shape the prompt sent to the provider, which is part of the
modelled `outcome`; on success the stripped raw response is sanitized, and
any raised exception is converted to a descriptive string. -/
def get_ai_recommendations (_salinity : ℚ) (_farming_technique _typhoon _flood : ℤ)
    (_predicted_production : ℚ) (outcome : ProviderOutcome) : Str :=
  match outcome with
  | .ok raw => parse_ai_recommendations (strip raw)
  | .exn e => chars "Error generating recommendations: " ++ e

/-! ## The /api/predict handler (src/app.py:262) -/

/-- JSON values as delivered by `request.get_json()` into the Python dict. -/
inductive JVal where
  | jnull
  | jbool (b : Bool)
  | jint (n : ℤ)
  | jfloat (q : ℚ)
  | jstr (s : Str)
  | jlist
deriving DecidableEq

/-- Python `dict.get` on the parsed JSON object (last binding wins, as in
Python's JSON decoding of duplicate keys). -/
def pyGet : List (Str × JVal) → Str → Option JVal
  | [], _ => none
  | (k', v) :: rest, k =>
    match pyGet rest k with
    | some w => some w
    | none => if k' = k then some v else none

/-- The `x is None` test of src/app.py:301: a field is "None" when the key
is absent or its JSON value is null. -/
def isNoneVal : Option JVal → Bool
  | none => true
  | some .jnull => true
  | some _ => false

/-- ASCII decimal digit test. -/
def isDigit (c : Char) : Bool := decide ('0' ≤ c) && decide (c ≤ '9')

/-- Numeric value of a digit string. -/
def digitsVal (l : Str) : ℕ := l.foldl (fun a c => a * 10 + (c.toNat - 48)) 0

/-- Parse an unsigned decimal literal, with an optional fractional part.
This restricts Python's `float(...)` string grammar to plain decimal
literals; the restriction affects only which strings coerce, never the
handler's control flow after a failed coercion. -/
def parseUnsignedFloat (s : Str) : Option ℚ :=
  let ip := s.takeWhile isDigit
  let rest := s.dropWhile isDigit
  match rest with
  | [] => if ip.isEmpty then none else some (digitsVal ip)
  | '.' :: fp =>
    if fp.all isDigit && (!ip.isEmpty || !fp.isEmpty) then
      some ((digitsVal ip : ℚ) + (digitsVal fp : ℚ) / (10 : ℚ) ^ fp.length)
    else none
  | _ => none

/-- Parse a signed decimal literal for `float(...)`. -/
def parseFloatLit : Str → Option ℚ
  | '+' :: r => parseUnsignedFloat r
  | '-' :: r => (parseUnsignedFloat r).map (fun q => -q)
  | s => parseUnsignedFloat s

/-- Parse a signed integer literal for `int(...)`. -/
def parseIntLit : Str → Option ℤ
  | '+' :: r => if r.isEmpty || !r.all isDigit then none else some (digitsVal r)
  | '-' :: r => if r.isEmpty || !r.all isDigit then none else some (-(digitsVal r : ℤ))
  | s => if s.isEmpty || !s.all isDigit then none else some (digitsVal s)

/-- A single-quote character (Python's repr quoting in error messages). -/
def sq : Char := Char.ofNat 39

/-- Python `float(v)`: the value, or the raised exception's message. -/
def pyFloat : JVal → Except Str ℚ
  | .jint n => .ok (n : ℚ)
  | .jfloat q => .ok q
  | .jbool b => .ok (if b then 1 else 0)
  | .jstr s =>
    match parseFloatLit s with
    | some q => .ok q
    | none => .error (chars "could not convert string to float: " ++ sq :: s ++ [sq])
  | .jnull =>
    .error (chars "float() argument must be a string or a real number, not "
      ++ sq :: chars "NoneType" ++ [sq])
  | .jlist =>
    .error (chars "float() argument must be a string or a real number, not "
      ++ sq :: chars "list" ++ [sq])

/-- Python `int(v)`: the value, or the raised exception's message.
`int` of a float truncates toward zero. -/
def pyInt : JVal → Except Str ℤ
  | .jint n => .ok n
  | .jfloat q => .ok (q.num.tdiv (q.den : ℤ))
  | .jbool b => .ok (if b then 1 else 0)
  | .jstr s =>
    match parseIntLit s with
    | some n => .ok n
    | none => .error (chars "invalid literal for int() with base 10: " ++ sq :: s ++ [sq])
  | .jnull =>
    .error (chars "int() argument must be a string, a bytes-like object or a real number, not "
      ++ sq :: chars "NoneType" ++ [sq])
  | .jlist =>
    .error (chars "int() argument must be a string, a bytes-like object or a real number, not "
      ++ sq :: chars "list" ++ [sq])

/-- The four coercions of src/app.py:307-310, in Python's left-to-right
evaluation order; the first raised exception aborts the sequence. -/
def coerceFields (vs vft vty vfl : JVal) : Except Str (ℚ × ℤ × ℤ × ℤ) :=
  match pyFloat vs with
  | .error e => .error e
  | .ok s =>
    match pyInt vft with
    | .error e => .error e
    | .ok ft =>
      match pyInt vty with
      | .error e => .error e
      | .ok ty =>
        match pyInt vfl with
        | .error e => .error e
        | .ok fl => .ok (s, ft, ty, fl)

/-- Body of an `/api/predict` HTTP response. -/
inductive RespBody where
  | err (msg : Str)
  | success (predicted_production : ℚ) (recommendations : Str)
deriving DecidableEq

/-- Embedding of the `/api/predict` handler (src/app.py:262), parameterized
by the estimator and the recommendation requester so that the claims about
those components never being invoked on error paths are expressible: the
response is computed, paired with its HTTP status code, from the parsed
JSON body (`none` models a body that parses to `None`) and the provider
outcome. -/
def predictWith (estimator : ℚ → ℤ → ℤ → ℤ → ℚ)
    (recommender : ℚ → ℤ → ℤ → ℤ → ℚ → ProviderOutcome → Str)
    (body : Option (List (Str × JVal))) (outcome : ProviderOutcome) : ℕ × RespBody :=
  match body with
  | none => (400, .err (chars "No data provided"))
  | some data =>
    if data.isEmpty then (400, .err (chars "No data provided"))
    else
      let salinity := pyGet data (chars "salinity")
      let farming_technique := pyGet data (chars "farming_technique")
      let typhoon := pyGet data (chars "typhoon")
      let flood := pyGet data (chars "flood")
      if isNoneVal salinity || isNoneVal farming_technique
          || isNoneVal typhoon || isNoneVal flood then
        (400, .err (chars "Missing required fields"))
      else
        match coerceFields (salinity.getD .jnull) (farming_technique.getD .jnull)
            (typhoon.getD .jnull) (flood.getD .jnull) with
        | .error e => (500, .err e)
        | .ok (s, ft, ty, fl) =>
          let predicted_production := estimator s ft ty fl
          let recommendations := recommender s ft ty fl predicted_production outcome
          (200, .success predicted_production recommendations)

/-- The `/api/predict` handler with the real estimator and requester. -/
def predict (body : Option (List (Str × JVal))) (outcome : ProviderOutcome) : ℕ × RespBody :=
  predictWith calculate_oyster_production get_ai_recommendations body outcome

/-! # Theorems -/

/-! ## Claims about the estimator -/

/-- C1: for every real salinity and integers `techniqueCode`, `typhoonCount`,
`floodCount`, the estimator returns
`max(0, 0.268*salinity + 0.567*techniqueCode + 0.436*typhoonCount + 0.223*floodCount - 4.595)`;
being a pure function it is deterministic, and the result is nonnegative for
all inputs. -/
theorem calculate_oyster_production_spec (salinity : ℚ) (farming_technique typhoon flood : ℤ) :
    calculate_oyster_production salinity farming_technique typhoon flood =
      max 0 (0.268 * salinity + 0.567 * (farming_technique : ℚ) + 0.436 * (typhoon : ℚ)
        + 0.223 * (flood : ℚ) - 4.595) ∧
    0 ≤ calculate_oyster_production salinity farming_technique typhoon flood :=
  ⟨rfl, le_max_left _ _⟩

/-- C6: the technique-label lookup maps 1, 2, 3 to their names and every other
integer to `"Unknown"`, while the estimator still uses the raw integer value
in the linear formula for every technique code, so the numeric result is never
gated by label validity. -/
theorem technique_label_decoupled_from_formula :
    get_farming_technique_name 1 = chars "Raft method" ∧
    get_farming_technique_name 2 = chars "Stake method" ∧
    get_farming_technique_name 3 = chars "Both Raft and Stake" ∧
    (∀ c : ℤ, c ≠ 1 → c ≠ 2 → c ≠ 3 → get_farming_technique_name c = chars "Unknown") ∧
    (∀ (s : ℚ) (c typhoon flood : ℤ),
      calculate_oyster_production s c typhoon flood =
        max 0 (0.268 * s + 0.567 * (c : ℚ) + 0.436 * (typhoon : ℚ)
          + 0.223 * (flood : ℚ) - 4.595)) := by
  refine ⟨rfl, rfl, rfl, ?_, fun _ _ _ _ => rfl⟩
  intro c h1 h2 h3
  simp [get_farming_technique_name, h1, h2, h3]

/-- Witness for C6 at the out-of-range technique code 4: the label is
`"Unknown"` and the formula still multiplies the raw value 4. -/
theorem technique_label_decoupled_from_formula_witness :
    get_farming_technique_name 4 = chars "Unknown" ∧
    calculate_oyster_production 10 4 0 0 =
      max 0 (0.268 * 10 + 0.567 * (4 : ℚ) + 0.436 * (0 : ℚ) + 0.223 * (0 : ℚ) - 4.595) :=
  ⟨technique_label_decoupled_from_formula.2.2.2.1 4 (by decide) (by decide) (by decide),
   technique_label_decoupled_from_formula.2.2.2.2 10 4 0 0⟩

/-- C8: the estimator at the concrete inputs gives
`estimate(50, 3, 2, 1) = 11.601` exactly and `estimate(15.02, 1, 0, 0) = 0`
(the raw linear value `-0.00264` is clamped by the max). -/
theorem estimate_concrete_values :
    calculate_oyster_production 50 3 2 1 = 11.601 ∧
    calculate_oyster_production 15.02 1 0 0 = 0 := by
  constructor <;> norm_num [calculate_oyster_production]

/-! ## Characterizing the sanitizer scan -/

theorem scanLines_true (ls : List Str) : scanLines true ls = (true, ls.filter keepLine) := by
  induction ls with
  | nil => rfl
  | cons l ls ih =>
    by_cases hh : isHeaderLine (strip l) = true
    · simp [scanLines, keepLine, hh, ih]
    · by_cases hb : (strip l).isEmpty = true
      · simp [scanLines, keepLine, hh, hb, ih]
      · by_cases hu : isBulletLine (strip l) = true
        · simp [scanLines, keepLine, hh, hb, hu, ih]
        · simp [scanLines, keepLine, hh, hb, hu, ih]

theorem scanLines_false (ls : List Str) :
    scanLines false ls =
      (ls.any (fun l => isHeaderLine (strip l)),
       (ls.dropWhile (fun l => !isHeaderLine (strip l))).filter keepLine) := by
  induction ls with
  | nil => rfl
  | cons l ls ih =>
    by_cases hh : isHeaderLine (strip l) = true
    · simp [scanLines, List.dropWhile_cons, hh, scanLines_true, List.filter_cons,
        keepLine]
    · simp [scanLines, List.dropWhile_cons, List.any_cons, hh, ih]

/-- C2: once some line of the input is a header line, the sanitizer's output
is exactly the lines from the first header on whose stripped form is a
header, a bullet, or blank, in their original order, joined with newlines
and stripped of leading and trailing whitespace. -/
theorem parse_keeps_structured_lines (raw : Str)
    (h : (splitNL raw).any (fun l => isHeaderLine (strip l)) = true) :
    parse_ai_recommendations raw =
      strip (joinNL
        (((splitNL raw).dropWhile (fun l => !isHeaderLine (strip l))).filter keepLine)) := by
  simp only [parse_ai_recommendations, scanLines_false]
  simp [h]

/-- Witness for C2 on the spec's example input: the conversational opener and
the stray narrative sentence are discarded, the header and both bullets kept. -/
theorem parse_keeps_structured_lines_witness :
    parse_ai_recommendations
        (chars "Okay let me think.\n**Farming Technique Optimization**\n• Do X\nSome stray sentence.\n• Do Y") =
      strip (joinNL
        (((splitNL (chars "Okay let me think.\n**Farming Technique Optimization**\n• Do X\nSome stray sentence.\n• Do Y")).dropWhile
            (fun l => !isHeaderLine (strip l))).filter keepLine)) :=
  parse_keeps_structured_lines _ (by decide)

/-! ## Whitespace-stripping lemmas -/

theorem rstrip_eq_rdropWhile (l : Str) : rstrip l = l.rdropWhile isWS := rfl

theorem rstrip_append_rtakeWhile (l : Str) :
    rstrip l ++ List.rtakeWhile isWS l = l := by
  rw [rstrip_eq_rdropWhile, List.rdropWhile, List.rtakeWhile, ← List.reverse_append,
    List.takeWhile_append_dropWhile, List.reverse_reverse]

theorem strip_eq_nil_iff (l : Str) : strip l = [] ↔ ∀ c ∈ l, isWS c := by
  unfold strip lstrip
  rw [List.dropWhile_eq_nil_iff]
  constructor
  · intro h c hc
    rw [← rstrip_append_rtakeWhile l] at hc
    rcases List.mem_append.mp hc with hm | hm
    · exact h c hm
    · exact List.mem_rtakeWhile_imp hm
  · intro h c hc
    refine h c ?_
    rw [← rstrip_append_rtakeWhile l]
    exact List.mem_append_left _ hc

theorem strip_ne_nil_of_mem {l : Str} {c : Char} (hc : c ∈ l) (hw : isWS c = false) :
    strip l ≠ [] := by
  intro h
  have := (strip_eq_nil_iff l).mp h c hc
  rw [hw] at this
  cases this

/-! ## The fallback search of the sanitizer -/

theorem findHeaderPos_match {raw : Str} {p : ℕ} (h : findHeaderPos raw = some p) :
    (matchStarAt (raw.drop p) || matchHashAt (raw.drop p)) = true := by
  induction raw generalizing p with
  | nil => simp [findHeaderPos] at h
  | cons c cs ih =>
    rw [findHeaderPos] at h
    by_cases hm : (matchStarAt (c :: cs) || matchHashAt (c :: cs)) = true
    · rw [if_pos hm] at h
      cases h
      simpa using hm
    · rw [if_neg hm] at h
      cases hq : findHeaderPos cs with
      | none => rw [hq] at h; simp at h
      | some q =>
        rw [hq] at h
        simp only [Option.map_some', Option.some.injEq] at h
        subst h
        simpa using ih hq

theorem match_gives_nonws {s : Str} (h : (matchStarAt s || matchHashAt s) = true) :
    ∃ c ∈ s, isWS c = false := by
  rcases Bool.or_eq_true_iff.mp h with hs | hh
  · match s, hs with
    | c1 :: c2 :: c3 :: cs, hs =>
      have h1 : c1 = '*' := by
        by_cases hc : c1 = '*'
        · exact hc
        · simp [matchStarAt, hc] at hs
      exact ⟨'*', by rw [← h1]; exact List.mem_cons_self _ _, by decide⟩
  · simp only [matchHashAt, Bool.and_eq_true, decide_eq_true_eq] at hh
    cases s with
    | nil => simp [List.headD] at hh
    | cons a t =>
      have h1 : a = '#' := by simpa using hh.1
      exact ⟨'#', by rw [← h1]; exact List.mem_cons_self _ _, by decide⟩

/-- C3: when no line of the input is a header line, the sanitizer falls back
to the substring of the raw input starting at the leftmost occurrence of the
header-like pattern `\*\*[^*]+\*\*|#+\s+[^\n]+` anywhere in the text,
trimmed; if the pattern occurs nowhere it returns the raw input trimmed.
The total function therefore returns a non-empty string whenever the
trimmed input is non-empty. -/
theorem parse_fallback_spec (raw : Str)
    (h : (splitNL raw).any (fun l => isHeaderLine (strip l)) = false) :
    (∀ p : ℕ, findHeaderPos raw = some p →
      parse_ai_recommendations raw = strip (raw.drop p)) ∧
    (findHeaderPos raw = none → parse_ai_recommendations raw = strip raw) ∧
    (strip raw ≠ [] → parse_ai_recommendations raw ≠ []) := by
  have hscan : parse_ai_recommendations raw =
      match findHeaderPos raw with
      | some start_pos => strip (raw.drop start_pos)
      | none => strip raw := by
    simp only [parse_ai_recommendations, scanLines_false]
    simp [h]
  refine ⟨?_, ?_, ?_⟩
  · intro p hp
    rw [hscan, hp]
  · intro hp
    rw [hscan, hp]
  · intro hne
    cases hp : findHeaderPos raw with
    | none => rw [hscan, hp]; exact hne
    | some p =>
      rw [hscan, hp]
      rcases match_gives_nonws (findHeaderPos_match hp) with ⟨c, hc, hw⟩
      exact strip_ne_nil_of_mem hc hw

/-- Witness for C3 on an input with neither a header line nor any
header-like pattern: the sanitizer returns the trimmed input, which is
non-empty. -/
theorem parse_fallback_spec_witness :
    parse_ai_recommendations (chars "  just plain advice text  ") =
      strip (chars "  just plain advice text  ") ∧
    parse_ai_recommendations (chars "  just plain advice text  ") ≠ [] :=
  ⟨(parse_fallback_spec (chars "  just plain advice text  ") (by decide)).2.1 (by decide),
   (parse_fallback_spec (chars "  just plain advice text  ") (by decide)).2.2 (by decide)⟩

/-! ## The /api/predict boundary -/

theorem isNoneVal_some_jint (n : ℤ) : isNoneVal (some (.jint n)) = false := rfl

theorem isNoneVal_of_pyFloat_ok {v : JVal} {q : ℚ} (h : pyFloat v = .ok q) :
    isNoneVal (some v) = false := by
  cases v
  · simp [pyFloat] at h
  all_goals rfl

theorem isNoneVal_of_pyInt_ok {v : JVal} {n : ℤ} (h : pyInt v = .ok n) :
    isNoneVal (some v) = false := by
  cases v
  · simp [pyInt] at h
  all_goals rfl

/-- C4: the recommendation requester never raises past its boundary: for
every exception message `e` raised by the provider call it returns the
string `"Error generating recommendations: "` followed by `e`; and a
predict request with a valid body still gets a 200 success response whose
`predicted_production` is the correctly computed estimate, with that error
string as the recommendations payload. -/
theorem requester_fail_soft (e : Str) :
    (∀ (s : ℚ) (ft ty fl : ℤ) (pred : ℚ),
      get_ai_recommendations s ft ty fl pred (.exn e) =
        chars "Error generating recommendations: " ++ e) ∧
    (∀ (data : List (Str × JVal)) (vs vft vty vfl : JVal) (s : ℚ) (ft ty fl : ℤ),
      data ≠ [] →
      pyGet data (chars "salinity") = some vs →
      pyGet data (chars "farming_technique") = some vft →
      pyGet data (chars "typhoon") = some vty →
      pyGet data (chars "flood") = some vfl →
      pyFloat vs = .ok s → pyInt vft = .ok ft → pyInt vty = .ok ty → pyInt vfl = .ok fl →
      predict (some data) (.exn e) =
        (200, .success (calculate_oyster_production s ft ty fl)
          (chars "Error generating recommendations: " ++ e))) := by
  constructor
  · intro s ft ty fl pred
    rfl
  · intro data vs vft vty vfl s ft ty fl hne hs hft hty hfl cs cft cty cfl
    have h1 := isNoneVal_of_pyFloat_ok cs
    have h2 := isNoneVal_of_pyInt_ok cft
    have h3 := isNoneVal_of_pyInt_ok cty
    have h4 := isNoneVal_of_pyInt_ok cfl
    cases data with
    | nil => exact absurd rfl hne
    | cons d ds =>
      simp [predict, predictWith, hs, hft, hty, hfl, h1, h2, h3, h4,
        coerceFields, cs, cft, cty, cfl, get_ai_recommendations]

/-- Witness for C4: a simulated network timeout still yields a 200 success
with the correctly computed estimate and an error-description string. -/
theorem requester_fail_soft_witness :
    predict (some [(chars "salinity", .jfloat 50), (chars "farming_technique", .jint 3),
        (chars "typhoon", .jint 2), (chars "flood", .jint 1)])
      (.exn (chars "Connection timed out")) =
      (200, .success (calculate_oyster_production 50 3 2 1)
        (chars "Error generating recommendations: " ++ chars "Connection timed out")) :=
  (requester_fail_soft (chars "Connection timed out")).2 _ (.jfloat 50) (.jint 3) (.jint 2)
    (.jint 1) 50 3 2 1 (by decide) (by decide) (by decide) (by decide) (by decide)
    rfl rfl rfl rfl

/-- C5: a request whose parsed body is absent or empty gets a 400 response
with body `"No data provided"`; otherwise, if any of the four required
fields is missing, a 400 response with body `"Missing required fields"`.
Both responses are independent of the estimator and recommender arguments,
so neither component is invoked. -/
theorem predict_validation (outcome : ProviderOutcome) :
    (∀ (est : ℚ → ℤ → ℤ → ℤ → ℚ) (rec : ℚ → ℤ → ℤ → ℤ → ℚ → ProviderOutcome → Str),
      predictWith est rec none outcome = (400, .err (chars "No data provided"))) ∧
    (∀ est rec, predictWith est rec (some []) outcome =
      (400, .err (chars "No data provided"))) ∧
    (∀ est rec (data : List (Str × JVal)), data ≠ [] →
      (isNoneVal (pyGet data (chars "salinity")) = true ∨
       isNoneVal (pyGet data (chars "farming_technique")) = true ∨
       isNoneVal (pyGet data (chars "typhoon")) = true ∨
       isNoneVal (pyGet data (chars "flood")) = true) →
      predictWith est rec (some data) outcome =
        (400, .err (chars "Missing required fields"))) := by
  refine ⟨fun _ _ => rfl, fun _ _ => rfl, ?_⟩
  intro est rec data hne hm
  have hcond : (isNoneVal (pyGet data (chars "salinity"))
      || isNoneVal (pyGet data (chars "farming_technique"))
      || isNoneVal (pyGet data (chars "typhoon"))
      || isNoneVal (pyGet data (chars "flood"))) = true := by
    rcases hm with h | h | h | h <;> simp [h]
  cases data with
  | nil => exact absurd rfl hne
  | cons d ds => simp [predictWith, hcond]

/-- Witness for C5: a body missing the `flood` field gets the 400
"Missing required fields" response from the real handler. -/
theorem predict_validation_witness :
    predictWith calculate_oyster_production get_ai_recommendations
      (some [(chars "salinity", .jfloat 15.02), (chars "farming_technique", .jint 1),
        (chars "typhoon", .jint 0)]) (.ok (chars "text")) =
      (400, .err (chars "Missing required fields")) :=
  (predict_validation (.ok (chars "text"))).2.2 _ _ _ (by decide)
    (Or.inr (Or.inr (Or.inr (by decide))))

/-- C9: when all four required fields are present but the left-to-right
coercion sequence raises, the response is a 500 carrying the coercion
exception's message, independently of the estimator and recommender
arguments — so the estimator is never invoked and no partial result is
produced. -/
theorem predict_coercion_error (data : List (Str × JVal)) (e : Str)
    (outcome : ProviderOutcome) (hne : data ≠ [])
    (h1 : isNoneVal (pyGet data (chars "salinity")) = false)
    (h2 : isNoneVal (pyGet data (chars "farming_technique")) = false)
    (h3 : isNoneVal (pyGet data (chars "typhoon")) = false)
    (h4 : isNoneVal (pyGet data (chars "flood")) = false)
    (hfail : coerceFields ((pyGet data (chars "salinity")).getD .jnull)
        ((pyGet data (chars "farming_technique")).getD .jnull)
        ((pyGet data (chars "typhoon")).getD .jnull)
        ((pyGet data (chars "flood")).getD .jnull) = .error e) :
    ∀ est rec, predictWith est rec (some data) outcome = (500, .err e) := by
  intro est rec
  cases data with
  | nil => exact absurd rfl hne
  | cons d ds => simp [predictWith, h1, h2, h3, h4, hfail]

/-- Witness for C9: a non-numeric salinity string fails `float(...)` and the
real handler returns a 500 carrying that exception's message. -/
theorem predict_coercion_error_witness :
    predictWith calculate_oyster_production get_ai_recommendations
      (some [(chars "salinity", .jstr (chars "abc")), (chars "farming_technique", .jint 1),
        (chars "typhoon", .jint 0), (chars "flood", .jint 0)]) (.ok (chars "text")) =
      (500, .err (chars "could not convert string to float: " ++ sq :: chars "abc" ++ [sq])) :=
  predict_coercion_error
    [(chars "salinity", .jstr (chars "abc")), (chars "farming_technique", .jint 1),
      (chars "typhoon", .jint 0), (chars "flood", .jint 0)]
    (chars "could not convert string to float: " ++ sq :: chars "abc" ++ [sq])
    (.ok (chars "text")) (by decide) rfl rfl rfl rfl rfl
    calculate_oyster_production get_ai_recommendations

/-- C10: at the `/api/predict` boundary a required field present but null is
treated exactly like an absent field — the None-test does not distinguish
them and the response is the 400 "Missing required fields" — whereas a field
equal to 0 or 0.0 passes validation and its value is fed to the estimator:
the presence check compares against None, not truthiness. -/
theorem null_field_equals_absent (outcome : ProviderOutcome) :
    (∀ est rec (data : List (Str × JVal)), data ≠ [] →
      pyGet data (chars "flood") = some .jnull →
      predictWith est rec (some data) outcome =
        (400, .err (chars "Missing required fields"))) ∧
    isNoneVal none = isNoneVal (some .jnull) ∧
    isNoneVal (some (.jint 0)) = false ∧
    isNoneVal (some (.jfloat 0)) = false ∧
    (∀ est rec (data : List (Str × JVal)) (vs : JVal) (s : ℚ) (ft ty : ℤ), data ≠ [] →
      pyGet data (chars "salinity") = some vs → pyFloat vs = .ok s →
      pyGet data (chars "farming_technique") = some (.jint ft) →
      pyGet data (chars "typhoon") = some (.jint ty) →
      pyGet data (chars "flood") = some (.jint 0) →
      predictWith est rec (some data) outcome =
        (200, .success (est s ft ty 0) (rec s ft ty 0 (est s ft ty 0) outcome))) := by
  refine ⟨?_, rfl, rfl, rfl, ?_⟩
  · intro est rec data hne hflood
    have hcond : (isNoneVal (pyGet data (chars "salinity"))
        || isNoneVal (pyGet data (chars "farming_technique"))
        || isNoneVal (pyGet data (chars "typhoon"))
        || isNoneVal (pyGet data (chars "flood"))) = true := by
      simp [hflood, isNoneVal]
    cases data with
    | nil => exact absurd rfl hne
    | cons d ds => simp [predictWith, hcond]
  · intro est rec data vs s ft ty hne hs cs hft hty hfl
    have h1 := isNoneVal_of_pyFloat_ok cs
    cases data with
    | nil => exact absurd rfl hne
    | cons d ds =>
      simp [predictWith, hs, hft, hty, hfl, h1, isNoneVal_some_jint, coerceFields, cs, pyInt]

/-- Witness for C10: a null `flood` is rejected as missing, while a zero
`flood` passes validation and reaches the estimator. -/
theorem null_field_equals_absent_witness :
    predictWith calculate_oyster_production get_ai_recommendations
      (some [(chars "salinity", .jfloat 20), (chars "farming_technique", .jint 1),
        (chars "typhoon", .jint 0), (chars "flood", .jnull)]) (.ok (chars "text")) =
      (400, .err (chars "Missing required fields")) ∧
    predictWith calculate_oyster_production get_ai_recommendations
      (some [(chars "salinity", .jfloat 20), (chars "farming_technique", .jint 1),
        (chars "typhoon", .jint 0), (chars "flood", .jint 0)]) (.ok (chars "text")) =
      (200, .success (calculate_oyster_production 20 1 0 0)
        (get_ai_recommendations 20 1 0 0 (calculate_oyster_production 20 1 0 0)
          (.ok (chars "text")))) :=
  ⟨(null_field_equals_absent (.ok (chars "text"))).1 _ _ _ (by decide) (by decide),
   (null_field_equals_absent (.ok (chars "text"))).2.2.2.2 _ _ _ (.jfloat 20) 20 1 0
     (by decide) (by decide) rfl (by decide) (by decide) (by decide)⟩

/-! ## Strip algebra, towards sanitizer idempotence -/

theorem dropWhile_append_of_mem {α : Type} {p : α → Bool} {x : List α} (y : List α)
    {c : α} (hc : c ∈ x) (hp : p c = false) :
    (x ++ y).dropWhile p = x.dropWhile p ++ y := by
  induction x with
  | nil => cases hc
  | cons a t ih =>
    by_cases ha : p a = true
    · have hct : c ∈ t := by
        rcases List.mem_cons.mp hc with h | h
        · subst h; rw [hp] at ha; cases ha
        · exact h
      simp [List.dropWhile_cons, ha, ih hct]
    · simp [List.dropWhile_cons, ha]

theorem dropWhile_append_of_all {α : Type} {p : α → Bool} {x : List α} (y : List α)
    (h : ∀ c ∈ x, p c = true) :
    (x ++ y).dropWhile p = y.dropWhile p := by
  induction x with
  | nil => rfl
  | cons a t ih =>
    simp only [List.cons_append, List.dropWhile_cons, h a (List.mem_cons_self a t), if_true]
    exact ih (fun c hc => h c (List.mem_cons_of_mem _ hc))

theorem mem_dropWhile_subset {α : Type} {p : α → Bool} {l : List α} {a : α}
    (h : a ∈ l.dropWhile p) : a ∈ l := by
  rw [← List.takeWhile_append_dropWhile (p := p) (l := l)]
  exact List.mem_append_right _ h

theorem lstrip_append_of_mem {x : Str} (y : Str) {c : Char} (hc : c ∈ x)
    (hw : isWS c = false) : lstrip (x ++ y) = lstrip x ++ y :=
  dropWhile_append_of_mem y hc hw

theorem lstrip_append_of_all {x : Str} (y : Str) (h : ∀ c ∈ x, isWS c = true) :
    lstrip (x ++ y) = lstrip y :=
  dropWhile_append_of_all y h

theorem rstrip_append_of_all {x y : Str} (h : ∀ c ∈ y, isWS c = true) :
    rstrip (x ++ y) = rstrip x := by
  unfold rstrip
  rw [List.reverse_append,
    dropWhile_append_of_all _ (fun c hc => h c (List.mem_reverse.mp hc))]

theorem rstrip_append_of_mem {x y : Str} {c : Char} (hc : c ∈ y) (hw : isWS c = false) :
    rstrip (x ++ y) = x ++ rstrip y := by
  unfold rstrip
  rw [List.reverse_append, dropWhile_append_of_mem _ (List.mem_reverse.mpr hc) hw,
    List.reverse_append, List.reverse_reverse]

theorem rstrip_eq_nil_iff (l : Str) : rstrip l = [] ↔ ∀ c ∈ l, isWS c = true := by
  rw [rstrip_eq_rdropWhile]
  exact List.rdropWhile_eq_nil_iff

theorem rstrip_cons_of_nonws {hd : Char} (tl : Str) (hw : isWS hd = false) :
    rstrip (hd :: tl) = hd :: rstrip tl := by
  by_cases hall : ∀ c ∈ tl, isWS c = true
  · have h1 : rstrip tl = [] := (rstrip_eq_nil_iff tl).mpr hall
    have h2 : rstrip (hd :: tl) = rstrip [hd] := by
      have := rstrip_append_of_all (x := [hd]) (y := tl) hall
      simpa using this
    rw [h2, h1]
    simp [rstrip, hw]
  · push_neg at hall
    rcases hall with ⟨c, hc, hcw⟩
    have hcw' : isWS c = false := by
      cases hb : isWS c
      · rfl
      · exact absurd hb hcw
    have := rstrip_append_of_mem (x := [hd]) hc hcw'
    simpa using this

theorem lstrip_idem (l : Str) : lstrip (lstrip l) = lstrip l :=
  List.dropWhile_idempotent isWS l

theorem rstrip_idem (l : Str) : rstrip (rstrip l) = rstrip l := by
  rw [rstrip_eq_rdropWhile, rstrip_eq_rdropWhile]
  exact List.rdropWhile_idempotent isWS l

theorem lstrip_rstrip_comm (l : Str) : lstrip (rstrip l) = rstrip (lstrip l) := by
  cases hd : lstrip l with
  | nil =>
    have hall : ∀ c ∈ l, isWS c = true := List.dropWhile_eq_nil_iff.mp hd
    have h1 : rstrip l = [] := (rstrip_eq_nil_iff l).mpr hall
    rw [h1]
    rfl
  | cons a t =>
    have hd' : l.dropWhile isWS = a :: t := hd
    have ha : isWS a = false := by
      have hne : l.dropWhile isWS ≠ [] := by rw [hd']; simp
      have h2 := List.head_dropWhile_not isWS l hne
      have hh : (l.dropWhile isWS).head hne = a := by simp [hd']
      rw [hh] at h2
      simpa using h2
    have hdecomp : l = l.takeWhile isWS ++ (a :: t) := by
      conv_lhs => rw [← List.takeWhile_append_dropWhile (p := isWS) (l := l)]
      rw [hd']
    calc lstrip (rstrip l)
        = lstrip (rstrip (l.takeWhile isWS ++ (a :: t))) := by rw [← hdecomp]
      _ = lstrip (l.takeWhile isWS ++ rstrip (a :: t)) := by
          rw [rstrip_append_of_mem (List.mem_cons_self a t) ha]
      _ = lstrip (l.takeWhile isWS ++ (a :: rstrip t)) := by
          rw [rstrip_cons_of_nonws t ha]
      _ = lstrip (a :: rstrip t) := by
          exact lstrip_append_of_all _ (fun c hc => List.mem_takeWhile_imp hc)
      _ = a :: rstrip t := by simp [lstrip, List.dropWhile_cons, ha]
      _ = rstrip (a :: t) := (rstrip_cons_of_nonws t ha).symm

theorem strip_rstrip (l : Str) : strip (rstrip l) = strip l := by
  unfold strip
  rw [rstrip_idem]

theorem strip_lstrip (l : Str) : strip (lstrip l) = strip l := by
  unfold strip
  rw [← lstrip_rstrip_comm l, lstrip_idem]

theorem strip_strip (l : Str) : strip (strip l) = strip l := by
  unfold strip
  rw [← lstrip_rstrip_comm (rstrip l), rstrip_idem, lstrip_idem]

theorem mem_rstrip_subset {l : Str} {c : Char} (h : c ∈ rstrip l) : c ∈ l := by
  rw [← rstrip_append_rtakeWhile l]
  exact List.mem_append_left _ h

theorem mem_lstrip_subset {l : Str} {c : Char} (h : c ∈ lstrip l) : c ∈ l :=
  mem_dropWhile_subset h

theorem rstrip_mem_nonws {l : Str} (h : rstrip l ≠ []) :
    ∃ c ∈ rstrip l, isWS c = false := by
  by_contra hcon
  push_neg at hcon
  apply h
  have hall : ∀ c ∈ rstrip l, isWS c = true := by
    intro c hc
    cases hb : isWS c
    · exact absurd hb (hcon c hc)
    · rfl
  have := (rstrip_eq_nil_iff (rstrip l)).mpr hall
  rwa [rstrip_idem] at this

theorem strip_mem_nonws {l : Str} (h : strip l ≠ []) : ∃ c ∈ l, isWS c = false := by
  by_contra hcon
  push_neg at hcon
  apply h
  refine (strip_eq_nil_iff l).mpr (fun c hc => ?_)
  cases hb : isWS c
  · exact absurd hb (hcon c hc)
  · rfl

/-! ## Splitting and joining on newlines -/

theorem splitNL_cons (c : Char) (cs : Str) {m : Str} {ms : List Str}
    (h : splitNL cs = m :: ms) :
    splitNL (c :: cs) = if c = '\n' then [] :: m :: ms else (c :: m) :: ms := by
  rw [splitNL, h]

theorem splitNL_ne_nil (s : Str) : splitNL s ≠ [] := by
  cases s with
  | nil => simp [splitNL]
  | cons c cs =>
    cases h : splitNL cs with
    | nil =>
      rw [splitNL, h]
      simp
    | cons l ls =>
      rw [splitNL_cons c cs h]
      by_cases hc : c = '\n' <;> simp [hc]

theorem noNL_splitNL {s : Str} : ∀ l ∈ splitNL s, '\n' ∉ l := by
  induction s with
  | nil =>
    intro l hl
    simp [splitNL] at hl
    subst hl
    simp
  | cons c cs ih =>
    intro l hl
    cases h : splitNL cs with
    | nil => exact absurd h (splitNL_ne_nil cs)
    | cons m ms =>
      rw [splitNL_cons c cs h] at hl
      by_cases hc : c = '\n'
      · rw [if_pos hc] at hl
        rcases List.mem_cons.mp hl with h1 | h1
        · subst h1; simp
        · exact ih l (h ▸ h1)
      · rw [if_neg hc] at hl
        rcases List.mem_cons.mp hl with h1 | h1
        · subst h1
          intro hmem
          rcases List.mem_cons.mp hmem with h2 | h2
          · exact hc h2.symm
          · exact ih m (h ▸ List.mem_cons_self m ms) h2
        · exact ih l (h ▸ List.mem_cons_of_mem m h1)

theorem joinNL_cons_of_ne {m : List Str} (l : Str) (hm : m ≠ []) :
    joinNL (l :: m) = l ++ '\n' :: joinNL m := by
  cases m with
  | nil => exact absurd rfl hm
  | cons a t => rfl

theorem joinNL_splitNL (s : Str) : joinNL (splitNL s) = s := by
  induction s with
  | nil => rfl
  | cons c cs ih =>
    cases h : splitNL cs with
    | nil => exact absurd h (splitNL_ne_nil cs)
    | cons l ls =>
      rw [splitNL_cons c cs h]
      by_cases hc : c = '\n'
      · rw [if_pos hc, joinNL_cons_of_ne _ (by simp), ← h, ih, hc]
        rfl
      · rw [if_neg hc]
        cases ls with
        | nil =>
          have hcs : cs = l := by rw [← ih, h]; rfl
          rw [hcs]
          rfl
        | cons b bs =>
          rw [joinNL_cons_of_ne _ (by simp), List.cons_append,
            ← joinNL_cons_of_ne l (by simp : (b :: bs : List Str) ≠ []), ← h, ih]

theorem splitNL_of_noNL {l : Str} (h : '\n' ∉ l) : splitNL l = [l] := by
  induction l with
  | nil => rfl
  | cons c cs ih =>
    have hc : ¬c = '\n' := fun hh => h (hh ▸ List.mem_cons_self c cs)
    have hcs : '\n' ∉ cs := fun hh => h (List.mem_cons_of_mem c hh)
    rw [splitNL_cons c cs (ih hcs)]
    simp [hc]

theorem splitNL_append_newline {a : Str} (rest : Str) (h : '\n' ∉ a) :
    splitNL (a ++ '\n' :: rest) = a :: splitNL rest := by
  induction a with
  | nil =>
    rw [List.nil_append]
    cases hr : splitNL rest with
    | nil => exact absurd hr (splitNL_ne_nil rest)
    | cons l ls => rw [splitNL_cons '\n' rest hr, if_pos rfl, ← hr]
  | cons c cs ih =>
    have hc : ¬c = '\n' := fun hh => h (hh ▸ List.mem_cons_self c cs)
    have hcs : '\n' ∉ cs := fun hh => h (List.mem_cons_of_mem c hh)
    rw [List.cons_append, splitNL_cons c _ (ih hcs)]
    simp [hc]

theorem splitNL_joinNL {L : List Str} (hL : L ≠ []) (h : ∀ l ∈ L, '\n' ∉ l) :
    splitNL (joinNL L) = L := by
  induction L with
  | nil => exact absurd rfl hL
  | cons l m ih =>
    cases m with
    | nil => exact splitNL_of_noNL (h l (List.mem_cons_self _ _))
    | cons b bs =>
      rw [joinNL_cons_of_ne _ (by simp),
        splitNL_append_newline _ (h l (List.mem_cons_self _ _)),
        ih (by simp) (fun x hx => h x (List.mem_cons_of_mem _ hx))]

/-! ## The effect of `rstrip` on a newline-join -/

theorem mem_trimTrail {ls : List Str} {l' : Str} (h : l' ∈ trimTrail ls) :
    ∃ l ∈ ls, l' = l ∨ l' = rstrip l := by
  induction ls with
  | nil => simp [trimTrail] at h
  | cons l ls ih =>
    rw [trimTrail] at h
    cases hts : trimTrail ls with
    | nil =>
      rw [hts] at h
      by_cases hr : rstrip l = []
      · rw [if_pos hr] at h
        cases h
      · rw [if_neg hr] at h
        have : l' = rstrip l := by simpa using h
        exact ⟨l, List.mem_cons_self _ _, Or.inr this⟩
    | cons m ms =>
      rw [hts] at h
      rcases List.mem_cons.mp h with h1 | h1
      · exact ⟨l, List.mem_cons_self _ _, Or.inl h1⟩
      · rcases ih (hts ▸ h1) with ⟨x, hx, hor⟩
        exact ⟨x, List.mem_cons_of_mem _ hx, hor⟩

theorem trimTrail_cons_head {f : Str} (rest : List Str) (hf : strip f ≠ []) :
    ∃ g gs, trimTrail (f :: rest) = g :: gs ∧ strip g = strip f := by
  rw [trimTrail]
  cases hts : trimTrail rest with
  | nil =>
    have hr : rstrip f ≠ [] := by
      intro h0
      apply hf
      unfold strip
      rw [h0]
      rfl
    exact ⟨rstrip f, [], by rw [if_neg hr], strip_rstrip f⟩
  | cons m ms => exact ⟨f, m :: ms, rfl, rfl⟩

theorem rstrip_joinNL (ls : List Str) :
    rstrip (joinNL ls) = joinNL (trimTrail ls) ∧
    (trimTrail ls ≠ [] → ∃ c ∈ joinNL (trimTrail ls), isWS c = false) := by
  induction ls with
  | nil => exact ⟨rfl, fun h => absurd rfl h⟩
  | cons l ls ih =>
    rw [trimTrail]
    cases hts : trimTrail ls with
    | nil =>
      have hall : ∀ c ∈ joinNL ls, isWS c = true := by
        have h1 : rstrip (joinNL ls) = [] := by rw [ih.1, hts]; rfl
        exact (rstrip_eq_nil_iff _).mp h1
      have hjoin : rstrip (joinNL (l :: ls)) = rstrip l := by
        cases ls with
        | nil => rfl
        | cons b bs =>
          rw [joinNL_cons_of_ne _ (by simp)]
          refine rstrip_append_of_all (fun c hc => ?_)
          rcases List.mem_cons.mp hc with h1 | h1
          · subst h1; rfl
          · exact hall c h1
      by_cases hr : rstrip l = []
      · refine ⟨?_, ?_⟩
        · rw [hjoin, hr]
          simp [hr, joinNL]
        · intro hcon
          simp [hr] at hcon
      · refine ⟨?_, ?_⟩
        · rw [hjoin]
          simp [hr, joinNL]
        · intro _
          have hex := rstrip_mem_nonws hr
          simpa [hr, joinNL] using hex
    | cons m ms =>
      have hne : trimTrail ls ≠ [] := by rw [hts]; simp
      have hls : ls ≠ [] := by
        intro h0
        rw [h0] at hts
        simp [trimTrail] at hts
      rcases ih with ⟨ih1, ih2⟩
      rcases ih2 hne with ⟨c, hc, hw⟩
      have hcm : c ∈ joinNL (m :: ms) := hts ▸ hc
      have hcj : c ∈ joinNL ls := by
        rw [← ih1] at hc
        exact mem_rstrip_subset hc
      refine ⟨?_, ?_⟩
      · rw [joinNL_cons_of_ne _ hls,
          show ('\n' :: joinNL ls : Str) = ['\n'] ++ joinNL ls from rfl,
          ← List.append_assoc,
          rstrip_append_of_mem hcj hw, ih1, hts, List.append_assoc]
        rfl
      · intro _
        refine ⟨c, ?_, hw⟩
        show c ∈ joinNL (l :: m :: ms)
        rw [joinNL_cons_of_ne _ (by simp : (m :: ms : List Str) ≠ [])]
        exact List.mem_append_right _ (List.mem_cons_of_mem _ hcm)

/-! ## Sanitizer idempotence -/

theorem keepLine_of_header {l : Str} (h : isHeaderLine (strip l) = true) :
    keepLine l = true := by
  simp [keepLine, h]

theorem keepLine_of_strip_eq {l l' : Str} (h : strip l' = strip l) :
    keepLine l' = keepLine l := by
  unfold keepLine
  rw [h]

theorem header_strip_ne_nil {l : Str} (h : isHeaderLine (strip l) = true) :
    strip l ≠ [] := by
  intro h0
  rw [h0] at h
  revert h
  decide

theorem lstrip_joinNL_cons {g : Str} (gs : List Str) {c : Char} (hc : c ∈ g)
    (hw : isWS c = false) :
    lstrip (joinNL (g :: gs)) = joinNL (lstrip g :: gs) := by
  cases gs with
  | nil => rfl
  | cons b bs =>
    rw [joinNL_cons_of_ne g (by simp : (b :: bs : List Str) ≠ []),
      joinNL_cons_of_ne (lstrip g) (by simp : (b :: bs : List Str) ≠ []),
      lstrip_append_of_mem _ hc hw]

theorem dropWhile_of_any {α : Type} {p : α → Bool} {l : List α} (h : l.any p = true) :
    ∃ f t, l.dropWhile (fun a => !p a) = f :: t ∧ p f = true := by
  induction l with
  | nil => simp at h
  | cons a t ih =>
    by_cases ha : p a = true
    · refine ⟨a, t, ?_, ha⟩
      rw [List.dropWhile_cons]
      simp [ha]
    · have ht : t.any p = true := by
        rw [List.any_cons] at h
        simpa [ha] using h
      rcases ih ht with ⟨f, ft, hd, hf⟩
      refine ⟨f, ft, ?_, hf⟩
      rw [List.dropWhile_cons]
      simp [ha, hd]

/-- A string that is already in sanitized shape — stripped, first line a
header, every line a header, bullet or blank — is a fixed point of the
sanitizer. -/
theorem parse_fixed_point {s f : Str} {rest : List Str}
    (hsplit : splitNL s = f :: rest)
    (hf : isHeaderLine (strip f) = true)
    (hall : ∀ l ∈ splitNL s, keepLine l = true)
    (hs : strip s = s) :
    parse_ai_recommendations s = s := by
  have hany : (splitNL s).any (fun l => isHeaderLine (strip l)) = true := by
    rw [hsplit]
    simp [hf]
  have hdrop : (f :: rest).dropWhile (fun l => !isHeaderLine (strip l)) = f :: rest := by
    rw [List.dropWhile_cons]
    simp [hf]
  have hfilter : (f :: rest).filter keepLine = f :: rest :=
    List.filter_eq_self.mpr (fun a ha => hall a (hsplit ▸ ha))
  rw [parse_keeps_structured_lines s hany, hsplit, hdrop, hfilter, ← hsplit,
    joinNL_splitNL, hs]

/-- C7: the sanitizer is idempotent on every input that contains at least
one header line: `sanitize(sanitize(x)) == sanitize(x)`. -/
theorem parse_idempotent (x : Str)
    (h : (splitNL x).any (fun l => isHeaderLine (strip l)) = true) :
    parse_ai_recommendations (parse_ai_recommendations x) = parse_ai_recommendations x := by
  obtain ⟨f, t, hdrop, hf⟩ := dropWhile_of_any h
  have hkeepf : keepLine f = true := keepLine_of_header hf
  have hfilter : (f :: t).filter keepLine = f :: t.filter keepLine := by
    simp [List.filter_cons, hkeepf]
  have hparse : parse_ai_recommendations x = strip (joinNL (f :: t.filter keepLine)) := by
    rw [parse_keeps_structured_lines x h, hdrop, hfilter]
  have hkeepall : ∀ l ∈ f :: t.filter keepLine, keepLine l = true := by
    intro l hl
    rcases List.mem_cons.mp hl with h1 | h1
    · subst h1
      exact hkeepf
    · exact List.of_mem_filter h1
  have hmemx : ∀ l ∈ f :: t.filter keepLine, l ∈ splitNL x := by
    intro l hl
    rcases List.mem_cons.mp hl with h1 | h1
    · rw [h1]
      exact mem_dropWhile_subset (by rw [hdrop]; exact List.mem_cons_self f t)
    · exact mem_dropWhile_subset
        (by rw [hdrop]; exact List.mem_cons_of_mem f (List.mem_of_mem_filter h1))
  have hnoNL : ∀ l ∈ f :: t.filter keepLine, '\n' ∉ l :=
    fun l hl => noNL_splitNL l (hmemx l hl)
  have hfs : strip f ≠ [] := header_strip_ne_nil hf
  obtain ⟨g, gs, htt, hgf⟩ := trimTrail_cons_head (t.filter keepLine) hfs
  have ho : parse_ai_recommendations x = lstrip (joinNL (g :: gs)) := by
    rw [hparse]
    unfold strip
    rw [(rstrip_joinNL (f :: t.filter keepLine)).1, htt]
  have hgne : strip g ≠ [] := by
    rw [hgf]
    exact hfs
  obtain ⟨c, hcg, hcw⟩ := strip_mem_nonws hgne
  have ho2 : parse_ai_recommendations x = joinNL (lstrip g :: gs) := by
    rw [ho]
    exact lstrip_joinNL_cons gs hcg hcw
  have hmemtt : ∀ l' ∈ g :: gs, ∃ l ∈ f :: t.filter keepLine, l' = l ∨ l' = rstrip l :=
    fun l' hl' => mem_trimTrail (htt ▸ hl')
  have hLno : ∀ l ∈ lstrip g :: gs, '\n' ∉ l := by
    intro l hl
    rcases List.mem_cons.mp hl with h1 | h1
    · subst h1
      intro hmem
      rcases hmemtt g (List.mem_cons_self _ _) with ⟨l0, hl0, hor⟩
      have hg : ('\n' : Char) ∈ g := mem_lstrip_subset hmem
      rcases hor with h2 | h2
      · exact hnoNL l0 hl0 (h2 ▸ hg)
      · exact hnoNL l0 hl0 (mem_rstrip_subset (h2 ▸ hg))
    · intro hmem
      rcases hmemtt l (List.mem_cons_of_mem _ h1) with ⟨l0, hl0, hor⟩
      rcases hor with h2 | h2
      · exact hnoNL l0 hl0 (h2 ▸ hmem)
      · exact hnoNL l0 hl0 (mem_rstrip_subset (h2 ▸ hmem))
  have hsplit_o : splitNL (parse_ai_recommendations x) = lstrip g :: gs := by
    rw [ho2]
    exact splitNL_joinNL (by simp) hLno
  have hhead : isHeaderLine (strip (lstrip g)) = true := by
    rw [strip_lstrip, hgf]
    exact hf
  have hallkeep : ∀ l ∈ splitNL (parse_ai_recommendations x), keepLine l = true := by
    rw [hsplit_o]
    intro l hl
    rcases List.mem_cons.mp hl with h1 | h1
    · subst h1
      rw [keepLine_of_strip_eq (strip_lstrip g)]
      rcases hmemtt g (List.mem_cons_self _ _) with ⟨l0, hl0, hor⟩
      rcases hor with h2 | h2
      · rw [h2]
        exact hkeepall l0 hl0
      · rw [h2, keepLine_of_strip_eq (strip_rstrip l0)]
        exact hkeepall l0 hl0
    · rcases hmemtt l (List.mem_cons_of_mem _ h1) with ⟨l0, hl0, hor⟩
      rcases hor with h2 | h2
      · rw [h2]
        exact hkeepall l0 hl0
      · rw [h2, keepLine_of_strip_eq (strip_rstrip l0)]
        exact hkeepall l0 hl0
  have hstripped : strip (parse_ai_recommendations x) = parse_ai_recommendations x := by
    rw [hparse]
    exact strip_strip _
  exact parse_fixed_point hsplit_o hhead hallkeep hstripped

/-- Witness for C7 on a concrete model response with a markdown header,
surrounding narrative, whitespace and bullets. -/
theorem parse_idempotent_witness :
    parse_ai_recommendations
        (parse_ai_recommendations (chars "intro text\n# Plan\n- do it\nstray note\n\n- done  ")) =
      parse_ai_recommendations (chars "intro text\n# Plan\n- do it\nstray note\n\n- done  ") :=
  parse_idempotent _ (by decide)

end EcoOyster
